import Mathlib

/-!
Shallow embedding of `scripts/log_analyzer.py` (Production-System-Monitor
Log Analyzer): the line parser, the field-extraction regexes, the batch
issue heuristics (`detect_issues`), the issue reconciliation against the
store (`insert_issues`), the file tailer (`tail_file`) and the rotation
logic of the main loop.  Strings are modelled over their character lists;
Python regular expressions are modelled by total functions that follow the
left-to-right, greedy (with no productive backtracking, as analysed per
pattern) semantics of `re.match` / `re.search` on the concrete patterns of
the source.  Database timestamps (`NOW()`) are abstracted to a `Nat` clock
passed to each call; Postgres evaluates `NOW()` to one transaction-constant
value, which matches a single clock value per `insert_issues` call.
-/

namespace LogAnalyzer

/-- ASCII model of Python's whitespace class (`str.strip`, regex class s):
space, tab, newline, carriage return, vertical tab, form feed. -/
def isSpaceC (c : Char) : Bool :=
  decide (c = ' ' ∨ c = '\t' ∨ c = '\n' ∨ c = '\r' ∨ c = '\x0b' ∨ c = '\x0c')

/-- ASCII model of the regex word class (letters, digits, underscore). -/
def isWordC (c : Char) : Bool :=
  c.isAlphanum || decide (c = '_')

/-- Python `str.strip()`: drop leading and trailing whitespace. -/
def pyStrip (l : List Char) : List Char :=
  ((l.dropWhile isSpaceC).reverse.dropWhile isSpaceC).reverse

/-- Python `str.lower()` (ASCII model). -/
def pyLower (l : List Char) : List Char :=
  l.map Char.toLower

/-- Python substring test `needle in hay` on character lists. -/
def containsSub (needle : List Char) : List Char → Bool
  | [] => needle.isEmpty
  | c :: t => needle.isPrefixOf (c :: t) || containsSub needle t

/-- Numeric value of a digit string, as Python `int()` on a run of digits. -/
def digitsToNat (l : List Char) : Nat :=
  l.foldl (fun acc c => acc * 10 + (c.toNat - '0'.toNat)) 0

/-- The fixed-shape timestamp part of LOG_PATTERN,
`dddd-dd-dd dd:dd:dd`: on success returns the 19 timestamp characters and
the rest of the line. -/
def matchTS : List Char → Option (List Char × List Char)
  | y1 :: y2 :: y3 :: y4 :: '-' :: m1 :: m2 :: '-' :: d1 :: d2 :: ' ' ::
    h1 :: h2 :: ':' :: n1 :: n2 :: ':' :: s1 :: s2 :: rest =>
      if y1.isDigit && y2.isDigit && y3.isDigit && y4.isDigit &&
         m1.isDigit && m2.isDigit && d1.isDigit && d2.isDigit &&
         h1.isDigit && h2.isDigit && n1.isDigit && n2.isDigit &&
         s1.isDigit && s2.isDigit then
        some ([y1, y2, y3, y4, '-', m1, m2, '-', d1, d2, ' ',
               h1, h2, ':', n1, n2, ':', s1, s2], rest)
      else none
  | _ => none

/-- `LOG_PATTERN.match` on an input line: timestamp, one-or-more
whitespace, a word-character run (level), whitespace, a bracketed
non-empty component, whitespace, and the message (the rest of the line up
to a newline, matching the dot class).  Greedy runs followed by a
character outside the class admit no productive backtracking in the
source pattern, so each run is the maximal one. -/
def matchLog (s : List Char) :
    Option (List Char × List Char × List Char × List Char) :=
  match matchTS s with
  | none => none
  | some (ts, r1) =>
    if r1.takeWhile isSpaceC = [] then none else
    if (r1.dropWhile isSpaceC).takeWhile isWordC = [] then none else
    if ((r1.dropWhile isSpaceC).dropWhile isWordC).takeWhile isSpaceC = [] then none else
    match ((r1.dropWhile isSpaceC).dropWhile isWordC).dropWhile isSpaceC with
    | '[' :: r5 =>
      if r5.takeWhile (fun c => decide (c ≠ ']')) = [] then none else
      match r5.dropWhile (fun c => decide (c ≠ ']')) with
      | ']' :: r7 =>
        if r7.takeWhile isSpaceC = [] then none else
        some (ts, (r1.dropWhile isSpaceC).takeWhile isWordC,
              r5.takeWhile (fun c => decide (c ≠ ']')),
              (r7.dropWhile isSpaceC).takeWhile (fun c => decide (c ≠ '\n')))
      | _ => none
    | _ => none

/-- TIME_PATTERN = `(d+)ms`, searched left to right: at the first
position holding a digit whose maximal digit run is immediately followed
by `ms`, return that run's value. -/
def findTimeMs : List Char → Option Nat
  | [] => none
  | c :: rest =>
    if c.isDigit then
      match (c :: rest).dropWhile Char.isDigit with
      | 'm' :: 's' :: _ => some (digitsToNat ((c :: rest).takeWhile Char.isDigit))
      | _ => findTimeMs rest
    else findTimeMs rest

/-- One attempt of USER_ID_PATTERN = `user_id[=:](d+)` anchored at the
head of the list. -/
def matchUserIdAt : List Char → Option Nat
  | 'u' :: 's' :: 'e' :: 'r' :: '_' :: 'i' :: 'd' :: sep :: rest =>
    if decide (sep = '=' ∨ sep = ':') then
      if (rest.takeWhile Char.isDigit) = [] then none
      else some (digitsToNat (rest.takeWhile Char.isDigit))
    else none
  | _ => none

/-- USER_ID_PATTERN searched left to right across the message. -/
def findUserId : List Char → Option Nat
  | [] => none
  | c :: rest =>
    match matchUserIdAt (c :: rest) with
    | some n => some n
    | none => findUserId rest

/-- ERROR_CODE_PATTERN = `(404|500|503|d{3})` searched left to right:
every alternative requires exactly three digits at the match position, so
the search returns the first window of three consecutive digits. -/
def findThreeDigits : List Char → Option (List Char)
  | a :: b :: c :: rest =>
    if a.isDigit && b.isDigit && c.isDigit then some [a, b, c]
    else findThreeDigits (b :: c :: rest)
  | _ => none

/-- A parsed log record (`parse_log_line`'s result dictionary). -/
structure Entry where
  timestamp : String
  level : String
  component : String
  message : String
  response_time : Option Nat
  user_id : Option Nat
  error_code : Option String
deriving DecidableEq, Repr

/-- `parse_log_line`: strip the line, match LOG_PATTERN, then extract the
optional response time, user id and error code from the message. -/
def parse_log_line (line : String) : Option Entry :=
  match matchLog (pyStrip line.data) with
  | none => none
  | some (ts, lvl, comp, msg) =>
      some { timestamp := String.mk ts
             level := String.mk lvl
             component := String.mk comp
             message := String.mk msg
             response_time := findTimeMs msg
             user_id := findUserId msg
             error_code := (findThreeDigits msg).map String.mk }

/-- The data interpolated into an issue's human-readable description
string.  The source formats these with f-strings (including float
formatting of the rate and of the mean response time); the embedding
keeps the interpolated data, which determines the formatted text. -/
inductive Description where
  | highErrorRate (component : String) (errorCount totalCount : Nat)
  | dbTimeout (count : Nat)
  | slowResponse (count totalTime : Nat)
  | authFailures (count : Nat)
deriving DecidableEq, Repr

/-- An issue observation built by `detect_issues` (one element of
`issues_to_insert`). -/
structure IssueObs where
  issue_type : String
  severity : String
  description : Description
  component : String
  occurrence_count : Nat
deriving DecidableEq, Repr

/-- One step of the grouping loop `by_component[component].append(entry)`:
Python dicts keep insertion order, so the groups form a list keyed by the
component's first occurrence. -/
def addToGroups (groups : List (String × List Entry)) (e : Entry) :
    List (String × List Entry) :=
  if groups.any (fun g => decide (g.1 = e.component)) then
    groups.map (fun g => if g.1 = e.component then (g.1, g.2 ++ [e]) else g)
  else groups ++ [(e.component, [e])]

/-- The `by_component` dictionary of `detect_issues`. -/
def groupByComponent (entries : List Entry) : List (String × List Entry) :=
  entries.foldl addToGroups []

/-- Records with `level == "ERROR"` (the `errors` list), in batch order. -/
def errorsOf (entries : List Entry) : List Entry :=
  entries.filter (fun e => decide (e.level = "ERROR"))

/-- The `slow_responses` list: `entry["response_time"] and
entry["response_time"] > 3000` (a falsy 0 fails the comparison anyway). -/
def slowOf (entries : List Entry) : List Entry :=
  entries.filter (fun e =>
    match e.response_time with
    | some t => decide (t > 3000)
    | none => false)

/-- `"timeout" in e["message"].lower()` and friends. -/
def msgHas (needle : String) (e : Entry) : Bool :=
  containsSub needle.data (pyLower e.message.data)

/-- The `db_timeouts` filter over the `errors` list. -/
def dbTimeoutsOf (entries : List Entry) : List Entry :=
  (errorsOf entries).filter (fun e =>
    decide (e.component = "Database") && msgHas "timeout" e)

/-- The `auth_failures` filter over the `errors` list. -/
def authFailuresOf (entries : List Entry) : List Entry :=
  (errorsOf entries).filter (fun e =>
    decide (e.component = "Auth") && (msgHas "failed" e || msgHas "invalid" e))

/-- The error-rate test of one component group against a threshold `t`:
the source computes `error_rate = error_count / total_count * 100 if
total_count > 0 else 0` in IEEE doubles and compares `error_rate > t` for
`t = 10` and `t = 20`.  For any feasible batch size the correctly-rounded
double comparison agrees with the exact rational one, which is the
integer comparison below (the `total_count > 0` guard needs no separate
branch: with an empty group both sides are 0); the rational formulation
is recovered by `errorRateGt_iff`. -/
def errorRateGt (ces : List Entry) (t : Nat) : Bool :=
  decide (100 * (ces.filter (fun e => decide (e.level = "ERROR"))).length >
    t * ces.length)

/-- The High Error Rate observation for one component group, when its
error rate exceeds 10 percent. -/
def herIssueOf (g : String × List Entry) : Option IssueObs :=
  if errorRateGt g.2 10 then
    some { issue_type := "High Error Rate"
           severity := if errorRateGt g.2 20 then "HIGH" else "MEDIUM"
           description := .highErrorRate g.1
             (g.2.filter (fun e => decide (e.level = "ERROR"))).length
             g.2.length
           component := g.1
           occurrence_count :=
             (g.2.filter (fun e => decide (e.level = "ERROR"))).length }
  else none

/-- The Database Timeout observation (ISSUE 2 of the source). -/
def dbIssueOf (entries : List Entry) : IssueObs :=
  { issue_type := "Database Timeout"
    severity := if (dbTimeoutsOf entries).length > 5 then "CRITICAL" else "HIGH"
    description := .dbTimeout (dbTimeoutsOf entries).length
    component := "Database"
    occurrence_count := (dbTimeoutsOf entries).length }

/-- The Slow Response Time observation (ISSUE 3 of the source, whose
description holds the mean of the slow response times). -/
def slowIssueOf (entries : List Entry) : IssueObs :=
  { issue_type := "Slow Response Time"
    severity := "MEDIUM"
    description := .slowResponse (slowOf entries).length
      (((slowOf entries).map (fun e => e.response_time.getD 0)).sum)
    component := "API"
    occurrence_count := (slowOf entries).length }

/-- The Authentication Failures observation (ISSUE 4 of the source). -/
def authIssueOf (entries : List Entry) : IssueObs :=
  { issue_type := "Authentication Failures"
    severity := "HIGH"
    description := .authFailures (authFailuresOf entries).length
    component := "Auth"
    occurrence_count := (authFailuresOf entries).length }

/-- `detect_issues`: the four heuristics over one batch, in source order —
per-component high error rate, database timeouts, slow responses,
authentication failures.  Returns `issues_to_insert` (the source then
passes it to `insert_issues`). -/
def detect_issues (entries : List Entry) : List IssueObs :=
  (groupByComponent entries).filterMap herIssueOf ++
  (if (dbTimeoutsOf entries).length > 0 then [dbIssueOf entries] else []) ++
  (if (slowOf entries).length > 0 then [slowIssueOf entries] else []) ++
  (if (authFailuresOf entries).length > 5 then [authIssueOf entries] else [])

/-- A row of the `issues` table. -/
structure PersistedIssue where
  id : Nat
  issue_type : String
  severity : String
  description : Description
  component : String
  first_seen : Nat
  last_seen : Nat
  occurrence_count : Nat
  resolved : Bool
deriving DecidableEq, Repr

/-- The issues table plus the id sequence backing `RETURNING id`. -/
structure StoreState where
  issues : List PersistedIssue
  next_id : Nat
deriving DecidableEq, Repr

/-- The WHERE clause of the dedup lookup: same type and component, not
resolved. -/
def matchesKey (t c : String) (i : PersistedIssue) : Bool :=
  decide (i.issue_type = t) && decide (i.component = c) && !i.resolved

/-- The dedup SELECT: among unresolved rows with this type and component,
the one with greatest `last_seen` (`ORDER BY last_seen DESC LIMIT 1`; SQL
leaves the order of ties unspecified, the model keeps the earliest-stored
row among ties). -/
def pickLatest (acc : Option PersistedIssue) (i : PersistedIssue) :
    Option PersistedIssue :=
  match acc with
  | none => some i
  | some j => if i.last_seen > j.last_seen then some i else some j

def findExisting (issues : List PersistedIssue) (t c : String) :
    Option PersistedIssue :=
  (issues.filter (matchesKey t c)).foldl pickLatest none

/-- The UPDATE branch applied to one row: accumulate the occurrence count
fetched by the SELECT, stamp `last_seen`, overwrite severity and
description; every other column is untouched. -/
def mergeRow (now : Nat) (obs : IssueObs) (ex : PersistedIssue)
    (i : PersistedIssue) : PersistedIssue :=
  if i.id = ex.id then
    { i with last_seen := now
             occurrence_count := ex.occurrence_count + obs.occurrence_count
             severity := obs.severity
             description := obs.description }
  else i

/-- One iteration of the `insert_issues` loop: look up an unresolved issue
with the same `(issue_type, component)`; update it if found, otherwise
insert a fresh row with `first_seen = last_seen = now`.  The INSERT names
no `resolved` column; the `issues` schema (documented in the design, DDL
not in the analyzed sources) defaults it to FALSE. -/
def reconcile (now : Nat) (st : StoreState) (obs : IssueObs) : StoreState :=
  match findExisting st.issues obs.issue_type obs.component with
  | some ex => { st with issues := st.issues.map (mergeRow now obs ex) }
  | none =>
      { issues := st.issues ++
          [{ id := st.next_id
             issue_type := obs.issue_type
             severity := obs.severity
             description := obs.description
             component := obs.component
             first_seen := now
             last_seen := now
             occurrence_count := obs.occurrence_count
             resolved := false }]
        next_id := st.next_id + 1 }

/-- `insert_issues`: reconcile each observation in order.  All `NOW()`
calls of one invocation see the same transaction-constant clock. -/
def insert_issues (now : Nat) (st : StoreState) (issues : List IssueObs) :
    StoreState :=
  issues.foldl (reconcile now) st

/-- Python `f.readlines()` on the remaining characters: split after every
newline, with a final unterminated chunk kept as a last line. -/
def readlinesAux (acc : List Char) : List Char → List (List Char)
  | [] => if acc = [] then [] else [acc]
  | c :: rest =>
      if c = '\n' then (acc ++ ['\n']) :: readlinesAux [] rest
      else readlinesAux (acc ++ [c]) rest

/-- `readlines` from the start of the given character sequence. -/
def pyReadlines (content : List Char) : List (List Char) :=
  readlinesAux [] content

/-- `tail_file`: a file is its character content when it exists; seek to
`last_position`, read the remaining lines, report `tell()` (the end of
file).  A missing file (`FileNotFoundError`) yields no lines and the
unchanged position. -/
def tail_file (file : Option (List Char)) (last_position : Nat) :
    List (List Char) × Nat :=
  match file with
  | none => ([], last_position)
  | some content => (pyReadlines (content.drop last_position), content.length)

/-- The tailing state of the main loop: `current_file` (initially None)
and `last_position`. -/
structure TailState where
  current_file : Option String
  last_position : Nat
deriving DecidableEq, Repr

/-- The file-handling part of one main-loop cycle: `fs` maps a path to the
content of an existing file, `discovered` is `get_latest_log_file()`'s
result.  No file: wait, state unchanged.  Otherwise reset the offset to 0
when the path differs from the tracked one, read from the resulting
offset, and record the new position.  Returns the new state and the lines
handed to parsing. -/
def loopCycle (fs : String → Option (List Char)) (discovered : Option String)
    (st : TailState) : TailState × List (List Char) :=
  match discovered with
  | none => (st, [])
  | some f =>
      let pos := if st.current_file = some f then st.last_position else 0
      let r := tail_file (fs f) pos
      (⟨some f, r.2⟩, r.1)

/-- Positions `i` of `l` at which three consecutive digits start: the
success condition of ERROR_CODE_PATTERN at position `i`. -/
def ThreeDigitWindow (l : List Char) (i : Nat) : Prop :=
  ∃ a b c t, l.drop i = a :: b :: c :: t ∧
    a.isDigit = true ∧ b.isDigit = true ∧ c.isDigit = true

/-- The store invariant: at most one unresolved issue per
`(issue_type, component)` pair. -/
def Inv (issues : List PersistedIssue) : Prop :=
  issues.Pairwise (fun i j =>
    i.resolved = false → j.resolved = false →
    i.issue_type = j.issue_type → i.component = j.component → False)

/-- A record of component X with the given level (the error-rate boundary
scenario of the spec). -/
def xEntry (lvl : String) : Entry :=
  { timestamp := "2024-01-01 00:00:00", level := lvl, component := "X",
    message := "m", response_time := none, user_id := none, error_code := none }

/-- 100 records for component X, `k` of them ERROR-level. -/
def xBatch (k : Nat) : List Entry :=
  List.replicate k (xEntry "ERROR") ++ List.replicate (100 - k) (xEntry "INFO")

/-- An ERROR-level Auth record whose message matches the authentication
failure filter. -/
def authEntry : Entry :=
  { timestamp := "2024-01-01 00:00:00", level := "ERROR", component := "Auth",
    message := "Login failed for user", response_time := none,
    user_id := none, error_code := none }

/-- The record parsed from the spec's extraction-independence example
line. -/
def c7Entry : Entry :=
  { timestamp := "2024-01-15 10:23:45", level := "ERROR",
    component := "Database",
    message := "Query timeout after 5231ms user_id=4521",
    response_time := some 5231, user_id := some 4521,
    error_code := some "523" }

section Lemmas

/-- The head of a `dropWhile` residue falsifies the predicate. -/
theorem head_dropWhile_false (p : Char → Bool) (l : List Char) {c : Char}
    {t : List Char} (h : l.dropWhile p = c :: t) : p c = false := by
  have h2 := List.head?_dropWhile_not p l
  rw [h] at h2
  simpa using h2

/-- `dropWhile` is idempotent. -/
theorem dropWhile_dropWhile_self (p : Char → Bool) (l : List Char) :
    (l.dropWhile p).dropWhile p = l.dropWhile p := by
  cases h : l.dropWhile p with
  | nil => simp
  | cons c t => rw [List.dropWhile_cons, head_dropWhile_false p l h]; simp

theorem mem_of_getLast?_eq {l : List Char} {a : Char}
    (h : l.getLast? = some a) : a ∈ l := by
  obtain ⟨hne, rfl⟩ :=
    List.mem_getLast?_eq_getLast (l := l) (x := a) (Option.mem_def.mpr h)
  exact List.getLast_mem hne

/-- Dropping a leading run keeps the last element, provided the last
element itself falsifies the predicate. -/
theorem getLast?_dropWhile (p : Char → Bool) (l : List Char) {a : Char}
    (hl : l.getLast? = some a) (ha : p a = false) :
    (l.dropWhile p).getLast? = some a := by
  cases hdw : l.dropWhile p with
  | nil =>
    have hall := List.dropWhile_eq_nil_iff.mp hdw
    have := hall a (mem_of_getLast?_eq hl)
    rw [ha] at this
    cases this
  | cons c t =>
    have hsplit := List.takeWhile_append_dropWhile p l
    have h2 : l.getLast? = (l.dropWhile p).getLast?.or (l.takeWhile p).getLast? := by
      conv_lhs => rw [← hsplit]
      exact List.getLast?_append
    rw [hl, hdw] at h2
    cases hg : (c :: t).getLast? with
    | none => exact absurd (List.getLast?_eq_none_iff.mp hg) (by simp)
    | some z =>
      rw [hg] at h2
      simp only [Option.or_some] at h2
      exact h2.symm

/-- The last character of a stripped line is not whitespace. -/
theorem pyStrip_getLast?_false {l : List Char} {c : Char}
    (h : (pyStrip l).getLast? = some c) : isSpaceC c = false := by
  unfold pyStrip at h
  rw [List.getLast?_reverse] at h
  cases hdw : (l.dropWhile isSpaceC).reverse.dropWhile isSpaceC with
  | nil => rw [hdw] at h; simp at h
  | cons d t =>
    rw [hdw] at h
    simp only [List.head?_cons, Option.some.injEq] at h
    subst h
    exact head_dropWhile_false isSpaceC _ hdw

/-- The first character of a stripped line is not whitespace. -/
theorem pyStrip_head?_false {l : List Char} {c : Char}
    (h : (pyStrip l).head? = some c) : isSpaceC c = false := by
  rcases hA : l.dropWhile isSpaceC with _ | ⟨a, t⟩
  · exfalso
    have : pyStrip l = [] := by unfold pyStrip; rw [hA]; rfl
    rw [this] at h
    simp at h
  · have ha : isSpaceC a = false := head_dropWhile_false isSpaceC l hA
    have hrevlast : (l.dropWhile isSpaceC).reverse.getLast? = some a := by
      rw [List.getLast?_reverse, hA]; rfl
    have hlast : ((l.dropWhile isSpaceC).reverse.dropWhile isSpaceC).getLast? = some a :=
      getLast?_dropWhile isSpaceC _ hrevlast ha
    have hh : (pyStrip l).head? = some a := by
      unfold pyStrip
      rw [List.head?_reverse]
      exact hlast
    rw [h] at hh
    cases hh
    exact ha

/-- Stripping is idempotent: `pyStrip (pyStrip l) = pyStrip l`. -/
theorem pyStrip_idem (l : List Char) : pyStrip (pyStrip l) = pyStrip l := by
  have hlead : (pyStrip l).dropWhile isSpaceC = pyStrip l := by
    cases hr : pyStrip l with
    | nil => simp
    | cons c t =>
      have hc : isSpaceC c = false := by
        apply pyStrip_head?_false (l := l)
        rw [hr]; rfl
      rw [List.dropWhile_cons, hc]
      simp
  have hstep : pyStrip (pyStrip l) =
      (((pyStrip l).dropWhile isSpaceC).reverse.dropWhile isSpaceC).reverse := rfl
  rw [hstep, hlead]
  unfold pyStrip
  rw [List.reverse_reverse, dropWhile_dropWhile_self]

theorem dropWhile_isSuffix (p : Char → Bool) (l : List Char) :
    l.dropWhile p <:+ l :=
  ⟨l.takeWhile p, List.takeWhile_append_dropWhile p l⟩

/-- The residue returned by the timestamp matcher is a suffix of the
line. -/
theorem matchTS_suffix {s ts r : List Char} (h : matchTS s = some (ts, r)) :
    r <:+ s := by
  unfold matchTS at h
  split at h
  next a1 a2 a3 a4 b1 b2 c1 c2 d1 d2 e1 e2 f1 f2 rest =>
    split at h
    · simp only [Option.some.injEq, Prod.mk.injEq] at h
      obtain ⟨-, hr⟩ := h
      subst hr
      exact ⟨[a1, a2, a3, a4, '-', b1, b2, '-', c1, c2, ' ',
              d1, d2, ':', e1, e2, ':', f1, f2], rfl⟩
    · simp at h
  next => simp at h

/-- Structure of a successful LOG_PATTERN match: the level and component
captures are non-empty, and an empty message capture forces the matched
line to end in a non-empty whitespace run. -/
theorem matchLog_some_spec {s ts lvl comp msg : List Char}
    (h : matchLog s = some (ts, lvl, comp, msg)) :
    lvl ≠ [] ∧ comp ≠ [] ∧
    (msg = [] → ∃ w, w ≠ [] ∧ w <:+ s ∧ ∀ x ∈ w, isSpaceC x = true) := by
  unfold matchLog at h
  split at h
  · simp at h
  next ts0 r1 hts =>
    split at h
    · simp at h
    next h1 =>
      split at h
      · simp at h
      next h2 =>
        split at h
        · simp at h
        next h3 =>
          split at h
          next r5 h4 =>
            split at h
            · simp at h
            next h5 =>
              split at h
              next r7 h6 =>
                split at h
                · simp at h
                next h7 =>
                  simp only [Option.some.injEq, Prod.mk.injEq] at h
                  obtain ⟨-, hlvl, hcomp, hmsg⟩ := h
                  subst hlvl; subst hcomp; subst hmsg
                  refine ⟨h2, h5, ?_⟩
                  intro hm
                  cases hr8 : r7.dropWhile isSpaceC with
                  | cons c t =>
                    exfalso
                    have hc : isSpaceC c = false :=
                      head_dropWhile_false isSpaceC r7 hr8
                    rw [hr8, List.takeWhile_cons] at hm
                    by_cases hcn : c = '\n'
                    · subst hcn
                      rw [show isSpaceC '\n' = true from rfl] at hc
                      cases hc
                    · rw [if_pos (by simpa using hcn)] at hm
                      cases hm
                  | nil =>
                    refine ⟨r7, ?_, ?_, ?_⟩
                    · intro hr7
                      apply h7
                      rw [hr7]
                      rfl
                    · have s1 : r7 <:+ (']' :: r7) := ⟨[']'], rfl⟩
                      have s2 : (']' :: r7) <:+ r5 := by
                        rw [← h6]
                        exact dropWhile_isSuffix _ _
                      have s3 : r5 <:+ ('[' :: r5) := ⟨['['], rfl⟩
                      have s4 : ('[' :: r5) <:+
                          ((r1.dropWhile isSpaceC).dropWhile isWordC) := by
                        rw [← h4]
                        exact dropWhile_isSuffix _ _
                      have s5 : ((r1.dropWhile isSpaceC).dropWhile isWordC) <:+
                          r1.dropWhile isSpaceC := dropWhile_isSuffix _ _
                      have s6 : r1.dropWhile isSpaceC <:+ r1 :=
                        dropWhile_isSuffix _ _
                      exact ((((((s1.trans s2).trans s3).trans s4).trans
                        s5).trans s6).trans (matchTS_suffix hts))
                    · exact List.dropWhile_eq_nil_iff.mp hr8
              next h6 => simp at h
          next h4 => simp at h

/-- C5: parsing is all-or-nothing — a successful parse has non-empty
level, component and message (and failure is the `none` value of a total
function, never an exception). -/
theorem parse_no_partial_records (line : String) (r : Entry)
    (h : parse_log_line line = some r) :
    r.level ≠ "" ∧ r.component ≠ "" ∧ r.message ≠ "" := by
  unfold parse_log_line at h
  rcases hm : matchLog (pyStrip line.data) with _ | ⟨ts, lvl, comp, msg⟩
  · rw [hm] at h; simp at h
  · rw [hm] at h
    simp only [Option.some.injEq] at h
    obtain ⟨hlvl, hcomp, hmsg⟩ := matchLog_some_spec hm
    subst h
    refine ⟨?_, ?_, ?_⟩
    · intro hc
      exact hlvl (congrArg String.data hc)
    · intro hc
      exact hcomp (congrArg String.data hc)
    · intro hc
      obtain ⟨w, hw, hsuf, hall⟩ := hmsg (congrArg String.data hc)
      obtain ⟨u, hu⟩ := hsuf
      cases hz : w.getLast? with
      | none => exact hw (List.getLast?_eq_none_iff.mp hz)
      | some z =>
        have hlast : (pyStrip line.data).getLast? = some z := by
          rw [← hu, List.getLast?_append, hz]
          rfl
        have : isSpaceC z = false := pyStrip_getLast?_false hlast
        rw [hall z (mem_of_getLast?_eq hz)] at this
        cases this

/-- Witness for C5: a concrete well-formed line parses to a record with
non-empty level, component and message. -/
theorem parse_no_partial_records_witness :
    ({ timestamp := "2024-01-15 10:23:45", level := "INFO",
       component := "API", message := "ok", response_time := none,
       user_id := none, error_code := none } : Entry).level ≠ "" ∧
    ({ timestamp := "2024-01-15 10:23:45", level := "INFO",
       component := "API", message := "ok", response_time := none,
       user_id := none, error_code := none } : Entry).component ≠ "" ∧
    ({ timestamp := "2024-01-15 10:23:45", level := "INFO",
       component := "API", message := "ok", response_time := none,
       user_id := none, error_code := none } : Entry).message ≠ "" :=
  parse_no_partial_records "2024-01-15 10:23:45 INFO [API] ok" _ rfl

/-- Reading a newline-terminated chunk yields one line and continues. -/
theorem readlinesAux_chunk :
    ∀ (body : List Char), '\n' ∉ body →
    ∀ (acc rest : List Char),
      readlinesAux acc (body ++ '\n' :: rest) =
        (acc ++ body ++ ['\n']) :: readlinesAux [] rest := by
  intro body
  induction body with
  | nil => intro _ acc rest; simp [readlinesAux]
  | cons c b ih =>
    intro hb acc rest
    have hc : ¬(c = '\n') := fun hcn => hb (by rw [hcn]; exact List.mem_cons_self _ _)
    have hbn : '\n' ∉ b := fun hm => hb (List.mem_cons_of_mem _ hm)
    have : (c :: b) ++ '\n' :: rest = c :: (b ++ '\n' :: rest) := rfl
    rw [this, readlinesAux, if_neg hc, ih hbn]
    simp

/-- `readlines` of a concatenation of newline-terminated lines is exactly
that list of lines. -/
theorem pyReadlines_join (ls : List (List Char))
    (h : ∀ l ∈ ls, ∃ body, l = body ++ ['\n'] ∧ '\n' ∉ body) :
    pyReadlines ls.flatten = ls := by
  induction ls with
  | nil => rfl
  | cons l ls ih =>
    obtain ⟨body, hl, hb⟩ := h l (List.mem_cons_self _ _)
    have hjoin : (l :: ls).flatten = body ++ '\n' :: ls.flatten := by
      rw [List.flatten_cons, hl, List.append_assoc]
      rfl
    unfold pyReadlines
    rw [hjoin, readlinesAux_chunk body hb [] ls.flatten]
    rw [List.nil_append]
    rw [← hl]
    exact congrArg (l :: ·) (ih (fun l' hl' => h l' (List.mem_cons_of_mem _ hl')))

/-- C8: `tail_file` returns exactly the lines appended after the given
offset plus the new end-of-file offset: a missing file yields no lines and
the unchanged offset; an offset at end of file yields no lines and the
unchanged offset; after appending newline-terminated lines, reading from
the old end of file yields exactly those lines and the advanced offset. -/
theorem tail_file_reads_appended :
    (∀ pos, tail_file none pos = ([], pos)) ∧
    (∀ (content : List Char) (pos : Nat), pos = content.length →
        tail_file (some content) pos = ([], pos)) ∧
    (∀ (content : List Char) (ls : List (List Char)),
        (∀ l ∈ ls, ∃ body, l = body ++ ['\n'] ∧ '\n' ∉ body) →
        tail_file (some (content ++ ls.flatten)) content.length =
          (ls, content.length + ls.flatten.length)) := by
  refine ⟨fun pos => rfl, ?_, ?_⟩
  · intro content pos h
    subst h
    simp [tail_file, pyReadlines, readlinesAux]
  · intro content ls h
    simp only [tail_file]
    rw [List.drop_left, pyReadlines_join ls h, List.length_append]

/-- Witness for C8: three lines `x`, `y`, `z` appended after offset 2 are
returned in full, with the offset advanced to 8. -/
theorem tail_file_reads_appended_witness :
    tail_file (some ("a\n".data ++
        ([['x', '\n'], ['y', '\n'], ['z', '\n']] : List (List Char)).flatten))
      "a\n".data.length =
      (([['x', '\n'], ['y', '\n'], ['z', '\n']] : List (List Char)),
       "a\n".data.length +
         ([['x', '\n'], ['y', '\n'], ['z', '\n']] : List (List Char)).flatten.length) := by
  apply tail_file_reads_appended.2.2
  intro l hl
  simp only [List.mem_cons, List.not_mem_nil, or_false] at hl
  rcases hl with rfl | rfl | rfl
  · exact ⟨['x'], by decide, by decide⟩
  · exact ⟨['y'], by decide, by decide⟩
  · exact ⟨['z'], by decide, by decide⟩

/-- C9: whenever the discovered path differs from the tracked one, the
cycle reads the discovered file from offset 0, tracks the new path, and
its result does not depend on the stale offset. -/
theorem loop_rotation_reset (fs : String → Option (List Char)) (f : String)
    (st : TailState) (h : st.current_file ≠ some f) :
    loopCycle fs (some f) st =
      (⟨some f, (tail_file (fs f) 0).2⟩, (tail_file (fs f) 0).1) ∧
    ∀ stale : Nat, loopCycle fs (some f) ⟨st.current_file, stale⟩ =
      loopCycle fs (some f) st := by
  constructor
  · simp [loopCycle, h]
  · intro stale
    simp [loopCycle, h]

/-- Witness for C9: a cycle that discovers `b.log` while tracking
`a.log` at offset 99 reads `b.log` from its start. -/
theorem loop_rotation_reset_witness :
    loopCycle (fun _ => some ['a', '\n']) (some "b.log") ⟨some "a.log", 99⟩ =
      (⟨some "b.log", (tail_file (some ['a', '\n']) 0).2⟩,
       (tail_file (some ['a', '\n']) 0).1) :=
  (loop_rotation_reset (fun _ => some ['a', '\n']) "b.log"
    ⟨some "a.log", 99⟩ (by decide)).1

/-- C10: parsing is invariant under surrounding whitespace — the parse of
a line equals the parse of its stripped form, field for field. -/
theorem parse_strip_invariant (line : String) :
    parse_log_line line = parse_log_line (String.mk (pyStrip line.data)) := by
  unfold parse_log_line
  have hdata : (String.mk (pyStrip line.data)).data = pyStrip line.data := rfl
  rw [hdata, pyStrip_idem]

theorem pickLatest_eq_some {acc : Option PersistedIssue} {i x : PersistedIssue}
    (h : pickLatest acc i = some x) : acc = some x ∨ x = i := by
  cases acc with
  | none =>
    simp only [pickLatest, Option.some.injEq] at h
    exact .inr h.symm
  | some j =>
    simp only [pickLatest] at h
    by_cases hlt : i.last_seen > j.last_seen
    · rw [if_pos hlt] at h
      cases h
      exact .inr rfl
    · rw [if_neg hlt] at h
      exact .inl h

theorem pickLatest_ne_none (acc : Option PersistedIssue) (i : PersistedIssue) :
    pickLatest acc i ≠ none := by
  cases acc with
  | none => simp [pickLatest]
  | some j =>
    simp only [pickLatest]
    by_cases hlt : i.last_seen > j.last_seen
    · rw [if_pos hlt]; simp
    · rw [if_neg hlt]; simp

theorem pickLatest_foldl_mem :
    ∀ (l : List PersistedIssue) (acc : Option PersistedIssue)
      (x : PersistedIssue), l.foldl pickLatest acc = some x →
      acc = some x ∨ x ∈ l := by
  intro l
  induction l with
  | nil => intro acc x h; exact .inl h
  | cons i t ih =>
    intro acc x h
    rcases ih (pickLatest acc i) x h with hacc | hmem
    · rcases pickLatest_eq_some hacc with hacc' | hxi
      · exact .inl hacc'
      · subst hxi
        exact .inr (List.mem_cons_self _ _)
    · exact .inr (List.mem_cons_of_mem _ hmem)

theorem pickLatest_foldl_eq_none :
    ∀ (l : List PersistedIssue) (acc : Option PersistedIssue),
      l.foldl pickLatest acc = none → acc = none ∧ l = [] := by
  intro l
  induction l with
  | nil => intro acc h; exact ⟨h, rfl⟩
  | cons i t ih =>
    intro acc h
    obtain ⟨hstep, -⟩ := ih (pickLatest acc i) h
    exact absurd hstep (pickLatest_ne_none acc i)

/-- A successful dedup lookup returns an unresolved stored issue with the
requested type and component. -/
theorem findExisting_some {issues : List PersistedIssue} {t c : String}
    {ex : PersistedIssue} (h : findExisting issues t c = some ex) :
    ex ∈ issues ∧ ex.issue_type = t ∧ ex.component = c ∧
    ex.resolved = false := by
  unfold findExisting at h
  rcases pickLatest_foldl_mem _ _ _ h with hacc | hmem
  · cases hacc
  · have hkey := List.of_mem_filter hmem
    simp only [matchesKey, Bool.and_eq_true, decide_eq_true_eq,
      Bool.not_eq_true'] at hkey
    exact ⟨List.mem_of_mem_filter hmem, hkey.1.1, hkey.1.2, hkey.2⟩

/-- The dedup lookup fails exactly when no unresolved issue with the
requested type and component is stored. -/
theorem findExisting_none_iff {issues : List PersistedIssue} {t c : String} :
    findExisting issues t c = none ↔
      ∀ i ∈ issues, matchesKey t c i = false := by
  unfold findExisting
  constructor
  · intro h i hi
    obtain ⟨-, hnil⟩ := pickLatest_foldl_eq_none _ _ h
    by_cases hk : matchesKey t c i = true
    · exact absurd (List.mem_filter.mpr ⟨hi, hk⟩) (by rw [hnil]; simp)
    · simpa using hk
  · intro h
    have : issues.filter (matchesKey t c) = [] :=
      List.filter_eq_nil_iff.mpr (fun i hi => by rw [h i hi]; simp)
    rw [this]
    rfl

/-- C1: when an unresolved issue with the observation's type and component
exists, `reconcile` merges instead of creating — the id sequence and row
count are unchanged, the matched row gets `last_seen = now`, its
occurrence count grows by exactly the observation's count, severity and
description are overwritten, and every other column of it (id, type,
component, first_seen, resolved) and every other row are unchanged; in
particular two Database Timeout observations with counts 3 then 2 yield a
single row with count 5, first_seen from the first call and last_seen
from the second. -/
theorem reconcile_merge_semantics :
    (∀ (now : Nat) (st : StoreState) (obs : IssueObs) (ex : PersistedIssue),
      findExisting st.issues obs.issue_type obs.component = some ex →
      (reconcile now st obs).next_id = st.next_id ∧
      (reconcile now st obs).issues.length = st.issues.length ∧
      ex ∈ st.issues ∧ ex.resolved = false ∧
      ex.issue_type = obs.issue_type ∧ ex.component = obs.component ∧
      { ex with last_seen := now,
                occurrence_count := ex.occurrence_count + obs.occurrence_count,
                severity := obs.severity,
                description := obs.description } ∈ (reconcile now st obs).issues ∧
      (∀ i ∈ st.issues, i.id ≠ ex.id → i ∈ (reconcile now st obs).issues)) ∧
    (∀ (t1 t2 : Nat) (s1 s2 : String) (d1 d2 : Description),
      insert_issues t2
        (insert_issues t1 ⟨[], 0⟩
          [⟨"Database Timeout", s1, d1, "Database", 3⟩])
        [⟨"Database Timeout", s2, d2, "Database", 2⟩] =
      ⟨[⟨0, "Database Timeout", s2, d2, "Database", t1, t2, 5, false⟩], 1⟩) := by
  constructor
  · intro now st obs ex hfind
    obtain ⟨hmem, hty, hco, hres⟩ := findExisting_some hfind
    have hrec : reconcile now st obs =
        { st with issues := st.issues.map (mergeRow now obs ex) } := by
      unfold reconcile
      rw [hfind]
    rw [hrec]
    refine ⟨rfl, List.length_map _ _, hmem, hres, hty, hco, ?_, ?_⟩
    · have hme : mergeRow now obs ex ex =
          { ex with last_seen := now,
                    occurrence_count := ex.occurrence_count + obs.occurrence_count,
                    severity := obs.severity,
                    description := obs.description } := by
        unfold mergeRow
        rw [if_pos rfl]
      exact hme ▸ List.mem_map_of_mem (mergeRow now obs ex) hmem
    · intro i hi hne
      have hmi : mergeRow now obs ex i = i := by
        unfold mergeRow
        rw [if_neg hne]
      exact hmi ▸ List.mem_map_of_mem (mergeRow now obs ex) hi
  · intro t1 t2 s1 s2 d1 d2
    rfl

/-- Witness for C1: merging a count-2 Database Timeout observation at time
200 into a store holding the count-3 row created at time 100. -/
theorem reconcile_merge_semantics_witness :
    (reconcile 200
      ⟨[⟨0, "Database Timeout", "HIGH", .dbTimeout 3, "Database",
         100, 100, 3, false⟩], 1⟩
      ⟨"Database Timeout", "HIGH", .dbTimeout 2, "Database", 2⟩).next_id = 1 ∧
    (reconcile 200
      ⟨[⟨0, "Database Timeout", "HIGH", .dbTimeout 3, "Database",
         100, 100, 3, false⟩], 1⟩
      ⟨"Database Timeout", "HIGH", .dbTimeout 2, "Database", 2⟩).issues.length = 1 := by
  have h := (reconcile_merge_semantics.1 200
    ⟨[⟨0, "Database Timeout", "HIGH", .dbTimeout 3, "Database",
       100, 100, 3, false⟩], 1⟩
    ⟨"Database Timeout", "HIGH", .dbTimeout 2, "Database", 2⟩
    ⟨0, "Database Timeout", "HIGH", .dbTimeout 3, "Database",
     100, 100, 3, false⟩ (by decide))
  exact ⟨h.1, h.2.1⟩

theorem mergeRow_key_fields (now : Nat) (obs : IssueObs) (ex i : PersistedIssue) :
    (mergeRow now obs ex i).resolved = i.resolved ∧
    (mergeRow now obs ex i).issue_type = i.issue_type ∧
    (mergeRow now obs ex i).component = i.component := by
  unfold mergeRow
  split <;> exact ⟨rfl, rfl, rfl⟩

/-- One reconcile keeps the dedup invariant. -/
theorem reconcile_preserves_inv (now : Nat) (st : StoreState) (obs : IssueObs)
    (h : Inv st.issues) : Inv (reconcile now st obs).issues := by
  unfold reconcile
  cases hfind : findExisting st.issues obs.issue_type obs.component with
  | some ex =>
    unfold Inv at h ⊢
    refine List.Pairwise.map _ ?_ h
    intro a b hR ha hb hty hco
    obtain ⟨hra, hta, hca⟩ := mergeRow_key_fields now obs ex a
    obtain ⟨hrb, htb, hcb⟩ := mergeRow_key_fields now obs ex b
    exact hR (hra ▸ ha) (hrb ▸ hb) (hta ▸ htb ▸ hty) (hca ▸ hcb ▸ hco)
  | none =>
    unfold Inv at h ⊢
    rw [List.pairwise_append]
    refine ⟨h, List.pairwise_singleton _ _, ?_⟩
    intro a ha b hb
    simp only [List.mem_singleton] at hb
    subst hb
    intro hra hrb hta hca
    have hkey := findExisting_none_iff.mp hfind a ha
    have hkey' : matchesKey obs.issue_type obs.component a = true := by
      simp [matchesKey, hta, hca, hra]
    rw [hkey] at hkey'
    cases hkey'

/-- C2: the store invariant — at most one unresolved issue per
`(issue_type, component)` — is preserved by every sequence of reconcile
operations, and `reconcile` updates in place (same row count) exactly
when an unresolved issue with the observation's key exists, creating one
new row otherwise. -/
theorem insert_issues_dedup_invariant :
    (∀ (ops : List (Nat × IssueObs)) (st : StoreState), Inv st.issues →
      Inv ((ops.foldl (fun s p => reconcile p.1 s p.2) st).issues)) ∧
    (∀ (now : Nat) (st : StoreState) (issues : List IssueObs),
      Inv st.issues → Inv (insert_issues now st issues).issues) ∧
    (∀ (now : Nat) (st : StoreState) (obs : IssueObs),
      ((∃ i ∈ st.issues, i.resolved = false ∧
          i.issue_type = obs.issue_type ∧ i.component = obs.component) →
        (reconcile now st obs).issues.length = st.issues.length) ∧
      ((¬∃ i ∈ st.issues, i.resolved = false ∧
          i.issue_type = obs.issue_type ∧ i.component = obs.component) →
        (reconcile now st obs).issues.length = st.issues.length + 1)) := by
  have hfold : ∀ (ops : List (Nat × IssueObs)) (st : StoreState),
      Inv st.issues →
      Inv ((ops.foldl (fun s p => reconcile p.1 s p.2) st).issues) := by
    intro ops
    induction ops with
    | nil => intro st h; exact h
    | cons p t ih =>
      intro st h
      exact ih _ (reconcile_preserves_inv p.1 st p.2 h)
  have hexists : ∀ (st : StoreState) (obs : IssueObs),
      (∃ i ∈ st.issues, i.resolved = false ∧
        i.issue_type = obs.issue_type ∧ i.component = obs.component) ↔
      findExisting st.issues obs.issue_type obs.component ≠ none := by
    intro st obs
    constructor
    · intro ⟨i, hi, hr, ht, hc⟩ hnone
      have := findExisting_none_iff.mp hnone i hi
      simp only [matchesKey, ht, hc, hr] at this
      simp at this
    · intro hne
      cases hfind : findExisting st.issues obs.issue_type obs.component with
      | none => exact absurd hfind hne
      | some ex =>
        obtain ⟨hmem, hty, hco, hres⟩ := findExisting_some hfind
        exact ⟨ex, hmem, hres, hty, hco⟩
  refine ⟨hfold, ?_, ?_⟩
  · intro now st issues h
    have : insert_issues now st issues =
        (issues.map (fun o => (now, o))).foldl
          (fun s p => reconcile p.1 s p.2) st := by
      unfold insert_issues
      rw [List.foldl_map]
    rw [this]
    exact hfold _ st h
  · intro now st obs
    constructor
    · intro hex
      rcases hfind : findExisting st.issues obs.issue_type obs.component with
        _ | ex
      · exact absurd hfind ((hexists st obs).mp hex)
      · unfold reconcile
        rw [hfind]
        exact List.length_map _ _
    · intro hnex
      rcases hfind : findExisting st.issues obs.issue_type obs.component with
        _ | ex
      · unfold reconcile
        rw [hfind]
        simp
      · exact absurd ((hexists st obs).mpr (by rw [hfind]; simp)) hnex

/-- Witness for C2: the invariant holds after reconciling two
observations of the same key into an empty store. -/
theorem insert_issues_dedup_invariant_witness :
    Inv ((([((5 : Nat), (⟨"Database Timeout", "HIGH", .dbTimeout 1,
          "Database", 1⟩ : IssueObs)),
        ((9 : Nat), (⟨"Database Timeout", "HIGH", .dbTimeout 2,
          "Database", 2⟩ : IssueObs))] : List (Nat × IssueObs)).foldl
      (fun s p => reconcile p.1 s p.2) ⟨[], 0⟩).issues) :=
  insert_issues_dedup_invariant.1 _ ⟨[], 0⟩ List.Pairwise.nil

theorem addToGroups_keys_nodup (gs : List (String × List Entry)) (e : Entry)
    (h : (gs.map Prod.fst).Nodup) :
    ((addToGroups gs e).map Prod.fst).Nodup := by
  unfold addToGroups
  by_cases hany : gs.any (fun g => decide (g.1 = e.component)) = true
  · rw [if_pos hany, List.map_map]
    have hfst : (Prod.fst ∘ fun g : String × List Entry =>
        if g.1 = e.component then (g.1, g.2 ++ [e]) else g) = Prod.fst := by
      funext g
      simp only [Function.comp_apply]
      split <;> rfl
    rw [hfst]
    exact h
  · rw [if_neg hany, List.map_append]
    rw [List.nodup_append]
    refine ⟨h, by simp, ?_⟩
    intro k hk
    simp only [List.map_cons, List.map_nil, List.mem_singleton]
    intro hke
    subst hke
    obtain ⟨g, hg, hfstg⟩ := List.mem_map.mp hk
    exact hany (List.any_eq_true.mpr ⟨g, hg, by simp [hfstg]⟩)

theorem groupByComponent_keys_nodup (entries : List Entry) :
    ((groupByComponent entries).map Prod.fst).Nodup := by
  unfold groupByComponent
  have : ∀ (es : List Entry) (gs : List (String × List Entry)),
      (gs.map Prod.fst).Nodup → ((es.foldl addToGroups gs).map Prod.fst).Nodup := by
    intro es
    induction es with
    | nil => intro gs h; exact h
    | cons e t ih => intro gs h; exact ih _ (addToGroups_keys_nodup gs e h)
  exact this entries [] (by simp)

theorem addToGroups_find? (gs : List (String × List Entry)) (e : Entry)
    (c : String) :
    List.find? (fun g => decide (g.1 = c)) (addToGroups gs e) =
      match List.find? (fun g => decide (g.1 = c)) gs with
      | some g => some (if g.1 = e.component then (g.1, g.2 ++ [e]) else g)
      | none =>
          if e.component = c then some (e.component, [e]) else none := by
  unfold addToGroups
  by_cases hany : gs.any (fun g => decide (g.1 = e.component)) = true
  · rw [if_pos hany, List.find?_map]
    have hpf : ((fun g : String × List Entry => decide (g.1 = c)) ∘
        (fun g : String × List Entry =>
          if g.1 = e.component then (g.1, g.2 ++ [e]) else g)) =
        (fun g : String × List Entry => decide (g.1 = c)) := by
      funext g
      simp only [Function.comp_apply]
      split <;> rfl
    rw [hpf]
    cases hf : List.find? (fun g : String × List Entry => decide (g.1 = c)) gs with
    | none =>
      simp only [Option.map_none']
      by_cases hec : e.component = c
      · exfalso
        obtain ⟨g0, hg0, hk0⟩ := List.any_eq_true.mp hany
        have hg0c : g0.1 = c := by
          have : g0.1 = e.component := of_decide_eq_true hk0
          rw [this, hec]
        have : List.find? (fun g : String × List Entry => decide (g.1 = c)) gs ≠ none := by
          intro hnone
          have := List.find?_eq_none.mp hnone g0 hg0
          simp [hg0c] at this
        exact this hf
      · rw [if_neg hec]
    | some g => rfl
  · rw [if_neg hany, List.find?_append]
    cases hf : List.find? (fun g : String × List Entry => decide (g.1 = c)) gs with
    | some g =>
      simp only [Option.or_some]
      have hg : g ∈ gs := List.mem_of_find?_eq_some hf
      have hne : ¬(g.1 = e.component) := by
        intro hge
        exact hany (List.any_eq_true.mpr ⟨g, hg, by simp [hge]⟩)
      rw [if_neg hne]
    | none =>
      simp only [Option.none_or]
      by_cases hec : e.component = c
      · rw [List.find?_cons_of_pos _ (by simp [hec]), if_pos hec]
      · rw [if_neg hec, List.find?_cons_of_neg _ (by simp [hec])]
        rfl

theorem groupBy_find?_fold :
    ∀ (es : List Entry) (gs : List (String × List Entry)) (c : String),
      List.find? (fun g => decide (g.1 = c)) (es.foldl addToGroups gs) =
        match List.find? (fun g => decide (g.1 = c)) gs with
        | some g =>
            some (g.1, g.2 ++ es.filter (fun e => decide (e.component = c)))
        | none =>
            if es.filter (fun e => decide (e.component = c)) = [] then none
            else some (c, es.filter (fun e => decide (e.component = c))) := by
  intro es
  induction es with
  | nil =>
    intro gs c
    cases hf : List.find? (fun g : String × List Entry => decide (g.1 = c)) gs with
    | some g => simpa using hf
    | none => simpa using hf
  | cons e t ih =>
    intro gs c
    have hfold : (e :: t).foldl addToGroups gs =
        t.foldl addToGroups (addToGroups gs e) := rfl
    rw [hfold, ih (addToGroups gs e) c, addToGroups_find? gs e c]
    cases hf : List.find? (fun g : String × List Entry => decide (g.1 = c)) gs with
    | some g =>
      have hgc : g.1 = c := by
        have h' := List.find?_some hf
        exact of_decide_eq_true h'
      simp only []
      by_cases hec : e.component = c
      · rw [if_pos (show g.1 = e.component by rw [hgc, hec])]
        simp [List.filter_cons, hec, List.append_assoc]
      · rw [if_neg (fun hge => hec (hge.symm.trans hgc))]
        simp [List.filter_cons, hec]
    | none =>
      simp only []
      by_cases hec : e.component = c
      · rw [if_pos hec]
        simp only []
        simp [List.filter_cons, hec]
      · rw [if_neg hec]
        simp only []
        simp [List.filter_cons, hec]

/-- The group of component `c` holds exactly the batch records of
component `c`, in order, and exists exactly when one such record does. -/
theorem groupByComponent_find? (entries : List Entry) (c : String) :
    List.find? (fun g => decide (g.1 = c)) (groupByComponent entries) =
      if entries.filter (fun e => decide (e.component = c)) = [] then none
      else some (c, entries.filter (fun e => decide (e.component = c))) := by
  unfold groupByComponent
  rw [groupBy_find?_fold entries [] c]
  rfl

theorem find?_eq_of_mem_nodupKeys {l : List (String × List Entry)}
    {g : String × List Entry} (h : g ∈ l) (hnd : (l.map Prod.fst).Nodup) :
    List.find? (fun x => decide (x.1 = g.1)) l = some g := by
  cases hf : List.find? (fun x : String × List Entry => decide (x.1 = g.1)) l with
  | none =>
    have := List.find?_eq_none.mp hf g h
    simp at this
  | some y =>
    have hy : y ∈ l := List.mem_of_find?_eq_some hf
    have hyg : y.1 = g.1 := by
      have h' := List.find?_some hf
      exact of_decide_eq_true h'
    have := List.inj_on_of_nodup_map hnd hy h hyg
    rw [this]

/-- Every group produced by the grouping fold is the filter of the batch
by its key. -/
theorem mem_groupByComponent {entries : List Entry} {g : String × List Entry}
    (h : g ∈ groupByComponent entries) :
    g.2 = entries.filter (fun e => decide (e.component = g.1)) := by
  have hfind := find?_eq_of_mem_nodupKeys h (groupByComponent_keys_nodup entries)
  rw [groupByComponent_find? entries g.1] at hfind
  by_cases hnil : entries.filter (fun e => decide (e.component = g.1)) = []
  · rw [if_pos hnil] at hfind
    cases hfind
  · rw [if_neg hnil] at hfind
    have := (Option.some.injEq _ _).mp hfind
    rw [← this]

/-- The integer error-rate comparison is the rational percentage
comparison of the spec. -/
theorem errorRateGt_iff (ces : List Entry) (t : Nat) :
    errorRateGt ces t = true ↔
      ((ces.filter (fun e => decide (e.level = "ERROR"))).length : ℚ) /
        (ces.length : ℚ) * 100 > (t : ℚ) := by
  unfold errorRateGt
  rw [decide_eq_true_eq]
  rcases Nat.eq_zero_or_pos ces.length with h0 | hpos
  · have hec : (ces.filter (fun e => decide (e.level = "ERROR"))).length = 0 :=
      Nat.le_zero.mp (h0 ▸ List.length_filter_le _ _)
    rw [h0, hec]
    simp
  · have hn : (0 : ℚ) < (ces.length : ℚ) := by exact_mod_cast hpos
    rw [gt_iff_lt, gt_iff_lt, div_mul_eq_mul_div, lt_div_iff₀ hn]
    constructor
    · intro h
      have h2 : ((t * ces.length : ℕ) : ℚ) <
          ((100 * (ces.filter (fun e => decide (e.level = "ERROR"))).length : ℕ) : ℚ) := by
        exact_mod_cast h
      push_cast at h2
      linarith
    · intro h
      have h2 : ((t * ces.length : ℕ) : ℚ) <
          ((100 * (ces.filter (fun e => decide (e.level = "ERROR"))).length : ℕ) : ℚ) := by
        push_cast
        linarith
      exact_mod_cast h2

theorem herIssueOf_some {g : String × List Entry} {iss : IssueObs}
    (h : herIssueOf g = some iss) :
    iss.issue_type = "High Error Rate" ∧ iss.component = g.1 ∧
    iss.occurrence_count =
      (g.2.filter (fun e => decide (e.level = "ERROR"))).length ∧
    iss.severity = (if errorRateGt g.2 20 then "HIGH" else "MEDIUM") ∧
    errorRateGt g.2 10 = true := by
  unfold herIssueOf at h
  by_cases hr : errorRateGt g.2 10 = true
  · rw [if_pos hr] at h
    cases h
    exact ⟨rfl, rfl, rfl, rfl, hr⟩
  · rw [if_neg hr] at h
    cases h

theorem mem_if_singleton {c : Prop} [Decidable c] {x iss : IssueObs}
    (h : iss ∈ (if c then [x] else ([] : List IssueObs))) : iss = x ∧ c := by
  by_cases hc : c
  · rw [if_pos hc] at h
    exact ⟨List.mem_singleton.mp h, hc⟩
  · rw [if_neg hc] at h
    exact absurd h (List.not_mem_nil iss)

/-- Case analysis on membership in `detect_issues`. -/
theorem detect_cases {entries : List Entry} {iss : IssueObs}
    (h : iss ∈ detect_issues entries) :
    (∃ g ∈ groupByComponent entries, herIssueOf g = some iss) ∨
    (iss = dbIssueOf entries ∧ (dbTimeoutsOf entries).length > 0) ∨
    (iss = slowIssueOf entries ∧ (slowOf entries).length > 0) ∨
    (iss = authIssueOf entries ∧ (authFailuresOf entries).length > 5) := by
  unfold detect_issues at h
  simp only [List.mem_append] at h
  rcases h with ((h | h) | h) | h
  · exact .inl (List.mem_filterMap.mp h)
  · exact .inr (.inl (mem_if_singleton h))
  · exact .inr (.inr (.inl (mem_if_singleton h)))
  · exact .inr (.inr (.inr (mem_if_singleton h)))

theorem mem_detect_of_her {entries : List Entry} {g : String × List Entry}
    {iss : IssueObs} (hg : g ∈ groupByComponent entries)
    (hs : herIssueOf g = some iss) : iss ∈ detect_issues entries := by
  unfold detect_issues
  simp only [List.mem_append]
  exact .inl (.inl (.inl (List.mem_filterMap.mpr ⟨g, hg, hs⟩)))

theorem mem_detect_auth {entries : List Entry}
    (hc : (authFailuresOf entries).length > 5) :
    authIssueOf entries ∈ detect_issues entries := by
  unfold detect_issues
  simp only [List.mem_append]
  right
  rw [if_pos hc]
  exact List.mem_singleton.mpr rfl

set_option maxRecDepth 8000 in
/-- C3: the HighErrorRate heuristic fires for a component exactly when
that component's ERROR percentage strictly exceeds 10; the observation
counts the component's ERROR records and is HIGH exactly above 20
percent, MEDIUM otherwise; with the spec's boundary instances at 10, 11
and 21 ERROR records out of 100. -/
theorem detect_high_error_rate :
    (∀ (entries : List Entry) (c : String),
      ((∃ iss ∈ detect_issues entries,
          iss.issue_type = "High Error Rate" ∧ iss.component = c) ↔
        (((entries.filter (fun e => decide (e.component = c))).filter
              (fun e => decide (e.level = "ERROR"))).length : ℚ) /
            ((entries.filter (fun e => decide (e.component = c))).length : ℚ) *
            100 > 10) ∧
      (∀ iss ∈ detect_issues entries,
        iss.issue_type = "High Error Rate" → iss.component = c →
          iss.occurrence_count =
            ((entries.filter (fun e => decide (e.component = c))).filter
              (fun e => decide (e.level = "ERROR"))).length ∧
          iss.severity =
            (if (((entries.filter (fun e => decide (e.component = c))).filter
                   (fun e => decide (e.level = "ERROR"))).length : ℚ) /
                 ((entries.filter (fun e => decide (e.component = c))).length : ℚ) *
                 100 > 20 then "HIGH" else "MEDIUM"))) ∧
    detect_issues (xBatch 10) = [] ∧
    detect_issues (xBatch 11) =
      [{ issue_type := "High Error Rate", severity := "MEDIUM",
         description := .highErrorRate "X" 11 100, component := "X",
         occurrence_count := 11 }] ∧
    detect_issues (xBatch 21) =
      [{ issue_type := "High Error Rate", severity := "HIGH",
         description := .highErrorRate "X" 21 100, component := "X",
         occurrence_count := 21 }] := by
  refine ⟨?_, by decide, by decide, by decide⟩
  intro entries c
  constructor
  · constructor
    · rintro ⟨iss, hmem, hty, hco⟩
      rcases detect_cases hmem with ⟨g, hg, hs⟩ | ⟨heq, -⟩ | ⟨heq, -⟩ | ⟨heq, -⟩
      · obtain ⟨-, hcomp, -, -, hrate⟩ := herIssueOf_some hs
        have hg2 := mem_groupByComponent hg
        rw [hcomp] at hco
        rw [hg2, hco] at hrate
        have := (errorRateGt_iff _ 10).mp hrate
        exact_mod_cast this
      · rw [heq] at hty
        simp [dbIssueOf] at hty
      · rw [heq] at hty
        simp [slowIssueOf] at hty
      · rw [heq] at hty
        simp [authIssueOf] at hty
    · intro hrate
      have hcfne : entries.filter (fun e => decide (e.component = c)) ≠ [] := by
        intro h0
        rw [h0] at hrate
        norm_num at hrate
      have hfind := groupByComponent_find? entries c
      rw [if_neg hcfne] at hfind
      have hgmem := List.mem_of_find?_eq_some hfind
      have hrate' :
          errorRateGt (entries.filter (fun e => decide (e.component = c))) 10 = true := by
        rw [errorRateGt_iff]
        exact_mod_cast hrate
      have hsome : herIssueOf
          (c, entries.filter (fun e => decide (e.component = c))) =
          some { issue_type := "High Error Rate"
                 severity := if errorRateGt
                     (entries.filter (fun e => decide (e.component = c))) 20
                   then "HIGH" else "MEDIUM"
                 description := .highErrorRate c
                   ((entries.filter (fun e => decide (e.component = c))).filter
                     (fun e => decide (e.level = "ERROR"))).length
                   (entries.filter (fun e => decide (e.component = c))).length
                 component := c
                 occurrence_count :=
                   ((entries.filter (fun e => decide (e.component = c))).filter
                     (fun e => decide (e.level = "ERROR"))).length } := by
        unfold herIssueOf
        rw [if_pos hrate']
      exact ⟨_, mem_detect_of_her hgmem hsome, rfl, rfl⟩
  · intro iss hmem hty hco
    rcases detect_cases hmem with ⟨g, hg, hs⟩ | ⟨heq, -⟩ | ⟨heq, -⟩ | ⟨heq, -⟩
    · obtain ⟨-, hcomp, hocc, hsev, -⟩ := herIssueOf_some hs
      have hg2 := mem_groupByComponent hg
      rw [hcomp] at hco
      constructor
      · rw [hocc, hg2, hco]
      · rw [hsev, hg2, hco]
        refine if_congr ?_ rfl rfl
        rw [errorRateGt_iff]
        norm_num
    · rw [heq] at hty
      simp [dbIssueOf] at hty
    · rw [heq] at hty
      simp [slowIssueOf] at hty
    · rw [heq] at hty
      simp [authIssueOf] at hty

theorem countP_if_singleton_le_one (b : Prop) [Decidable b] (x : IssueObs)
    (p : IssueObs → Bool) :
    (if b then [x] else ([] : List IssueObs)).countP p ≤ 1 := by
  split
  · rw [List.countP_cons, List.countP_nil]
    split <;> simp
  · simp

theorem countP_if_singleton_zero (b : Prop) [Decidable b] (x : IssueObs)
    (p : IssueObs → Bool) (hp : p x = false) :
    (if b then [x] else ([] : List IssueObs)).countP p = 0 := by
  split
  · rw [List.countP_cons, List.countP_nil, hp]
    simp
  · simp

theorem countP_her_zero (groups : List (String × List Entry))
    (p : IssueObs → Bool)
    (hp : ∀ iss : IssueObs, iss.issue_type = "High Error Rate" →
      p iss = false) :
    (groups.filterMap herIssueOf).countP p = 0 := by
  rw [List.countP_eq_zero]
  intro a ha
  obtain ⟨g, hg, hs⟩ := List.mem_filterMap.mp ha
  rw [hp a (herIssueOf_some hs).1]
  simp

/-- Distinct components yield distinct HighErrorRate observations: over
groups with pairwise-distinct keys, at most one emitted observation has
any given component. -/
theorem countP_her_component_le_one (groups : List (String × List Entry))
    (hnd : (groups.map Prod.fst).Nodup) (c : String) :
    (groups.filterMap herIssueOf).countP
      (fun i => decide (i.issue_type = "High Error Rate" ∧ i.component = c)) ≤ 1 := by
  induction groups with
  | nil => simp
  | cons g t ih =>
    have hnd2 : (g.1 :: t.map Prod.fst).Nodup := by simpa using hnd
    have hcons := List.nodup_cons.mp hnd2
    rw [List.filterMap_cons]
    cases hfg : herIssueOf g with
    | none => exact ih hcons.2
    | some iss =>
      rw [List.countP_cons]
      by_cases hp : (iss.issue_type = "High Error Rate" ∧ iss.component = c)
      · have hzero : (t.filterMap herIssueOf).countP
            (fun i => decide (i.issue_type = "High Error Rate" ∧
              i.component = c)) = 0 := by
          rw [List.countP_eq_zero]
          intro a ha hpa
          obtain ⟨g', hg', hs'⟩ := List.mem_filterMap.mp ha
          have hpa' := of_decide_eq_true hpa
          have hcomp' := (herIssueOf_some hs').2.1
          have hcompg := (herIssueOf_some hfg).2.1
          apply hcons.1
          have hkeys : g'.1 = g.1 := by
            rw [← hcomp', hpa'.2, ← hp.2, hcompg]
          rw [← hkeys]
          exact List.mem_map.mpr ⟨g', hg', rfl⟩
        rw [hzero]
        split <;> simp
      · rw [if_neg (by simpa using hp)]
        have := ih hcons.2
        omega

/-- Amended C6: the DatabaseTimeout, SlowResponseTime and
AuthenticationFailures heuristics each emit at most one observation per
batch, and HighErrorRate emits at most one observation per component per
batch (but may emit several across distinct components). -/
theorem detect_at_most_one_per_heuristic (entries : List Entry) (c : String) :
    (detect_issues entries).countP
      (fun i => decide (i.issue_type = "Database Timeout")) ≤ 1 ∧
    (detect_issues entries).countP
      (fun i => decide (i.issue_type = "Slow Response Time")) ≤ 1 ∧
    (detect_issues entries).countP
      (fun i => decide (i.issue_type = "Authentication Failures")) ≤ 1 ∧
    (detect_issues entries).countP
      (fun i => decide (i.issue_type = "High Error Rate" ∧ i.component = c)) ≤ 1 := by
  unfold detect_issues
  refine ⟨?_, ?_, ?_, ?_⟩ <;>
    rw [List.countP_append, List.countP_append, List.countP_append]
  · have h1 := countP_her_zero (groupByComponent entries)
      (fun i => decide (i.issue_type = "Database Timeout"))
      (fun iss hh => by simp only []; rw [hh]; decide)
    have h2 := countP_if_singleton_le_one ((dbTimeoutsOf entries).length > 0)
      (dbIssueOf entries) (fun i => decide (i.issue_type = "Database Timeout"))
    have h3 := countP_if_singleton_zero ((slowOf entries).length > 0)
      (slowIssueOf entries)
      (fun i => decide (i.issue_type = "Database Timeout"))
      (by simp [slowIssueOf])
    have h4 := countP_if_singleton_zero ((authFailuresOf entries).length > 5)
      (authIssueOf entries)
      (fun i => decide (i.issue_type = "Database Timeout"))
      (by simp [authIssueOf])
    omega
  · have h1 := countP_her_zero (groupByComponent entries)
      (fun i => decide (i.issue_type = "Slow Response Time"))
      (fun iss hh => by simp only []; rw [hh]; decide)
    have h2 := countP_if_singleton_zero ((dbTimeoutsOf entries).length > 0)
      (dbIssueOf entries) (fun i => decide (i.issue_type = "Slow Response Time"))
      (by simp [dbIssueOf])
    have h3 := countP_if_singleton_le_one ((slowOf entries).length > 0)
      (slowIssueOf entries)
      (fun i => decide (i.issue_type = "Slow Response Time"))
    have h4 := countP_if_singleton_zero ((authFailuresOf entries).length > 5)
      (authIssueOf entries)
      (fun i => decide (i.issue_type = "Slow Response Time"))
      (by simp [authIssueOf])
    omega
  · have h1 := countP_her_zero (groupByComponent entries)
      (fun i => decide (i.issue_type = "Authentication Failures"))
      (fun iss hh => by simp only []; rw [hh]; decide)
    have h2 := countP_if_singleton_zero ((dbTimeoutsOf entries).length > 0)
      (dbIssueOf entries)
      (fun i => decide (i.issue_type = "Authentication Failures"))
      (by simp [dbIssueOf])
    have h3 := countP_if_singleton_zero ((slowOf entries).length > 0)
      (slowIssueOf entries)
      (fun i => decide (i.issue_type = "Authentication Failures"))
      (by simp [slowIssueOf])
    have h4 := countP_if_singleton_le_one ((authFailuresOf entries).length > 5)
      (authIssueOf entries)
      (fun i => decide (i.issue_type = "Authentication Failures"))
    omega
  · have h1 := countP_her_component_le_one (groupByComponent entries)
      (groupByComponent_keys_nodup entries) c
    have h2 := countP_if_singleton_zero ((dbTimeoutsOf entries).length > 0)
      (dbIssueOf entries)
      (fun i => decide (i.issue_type = "High Error Rate" ∧ i.component = c))
      (by simp [dbIssueOf])
    have h3 := countP_if_singleton_zero ((slowOf entries).length > 0)
      (slowIssueOf entries)
      (fun i => decide (i.issue_type = "High Error Rate" ∧ i.component = c))
      (by simp [slowIssueOf])
    have h4 := countP_if_singleton_zero ((authFailuresOf entries).length > 5)
      (authIssueOf entries)
      (fun i => decide (i.issue_type = "High Error Rate" ∧ i.component = c))
      (by simp [authIssueOf])
    omega

/-- Counterexample to C6 as stated: a batch with one ERROR record in each
of two components makes the HighErrorRate heuristic emit two observations
in a single batch. -/
theorem detect_two_her_counterexample :
    (detect_issues
      [{ timestamp := "2024-01-01 00:00:00", level := "ERROR",
         component := "A", message := "m", response_time := none,
         user_id := none, error_code := none },
       { timestamp := "2024-01-01 00:00:00", level := "ERROR",
         component := "B", message := "m", response_time := none,
         user_id := none, error_code := none }]).countP
      (fun i => decide (i.issue_type = "High Error Rate")) = 2 := by decide

set_option maxRecDepth 8000 in
/-- Witness for C3: the batch of 100 component-X records with 11 ERROR
emits a HighErrorRate observation for X. -/
theorem detect_high_error_rate_witness :
    ∃ iss ∈ detect_issues (xBatch 11),
      iss.issue_type = "High Error Rate" ∧ iss.component = "X" := by
  apply ((detect_high_error_rate.1 (xBatch 11) "X").1).mpr
  have h1 : ((xBatch 11).filter (fun e => decide (e.component = "X"))).length
      = 100 := by decide
  have h2 : (((xBatch 11).filter (fun e => decide (e.component = "X"))).filter
      (fun e => decide (e.level = "ERROR"))).length = 11 := by decide
  rw [h1, h2]
  norm_num

/-- C4: the AuthenticationFailures heuristic counts ERROR-level Auth
records whose lowercased message contains "failed" or "invalid", fires
exactly when that count strictly exceeds 5, and then emits one HIGH
observation for component Auth carrying the count; with the spec's
boundary instances at 5 and 6 matching records. -/
theorem detect_auth_failures :
    (∀ entries : List Entry,
      authFailuresOf entries = entries.filter (fun e =>
        (decide (e.component = "Auth") &&
          (msgHas "failed" e || msgHas "invalid" e)) &&
        decide (e.level = "ERROR")) ∧
      ((∃ iss ∈ detect_issues entries,
          iss.issue_type = "Authentication Failures") ↔
        (authFailuresOf entries).length > 5) ∧
      (∀ iss ∈ detect_issues entries,
        iss.issue_type = "Authentication Failures" →
          iss.severity = "HIGH" ∧ iss.component = "Auth" ∧
          iss.occurrence_count = (authFailuresOf entries).length)) ∧
    (detect_issues (List.replicate 5 authEntry)).countP
      (fun i => decide (i.issue_type = "Authentication Failures")) = 0 ∧
    (detect_issues (List.replicate 6 authEntry)).filter
      (fun i => decide (i.issue_type = "Authentication Failures")) =
      [{ issue_type := "Authentication Failures", severity := "HIGH",
         description := .authFailures 6, component := "Auth",
         occurrence_count := 6 }] := by
  refine ⟨?_, by decide, by decide⟩
  intro entries
  refine ⟨?_, ?_, ?_⟩
  · unfold authFailuresOf errorsOf
    rw [List.filter_filter]
  · constructor
    · rintro ⟨iss, hmem, hty⟩
      rcases detect_cases hmem with ⟨g, hg, hs⟩ | ⟨heq, hc⟩ | ⟨heq, hc⟩ | ⟨heq, hc⟩
      · exact absurd ((herIssueOf_some hs).1.symm.trans hty) (by decide)
      · rw [heq] at hty
        simp [dbIssueOf] at hty
      · rw [heq] at hty
        simp [slowIssueOf] at hty
      · exact hc
    · intro hgt
      exact ⟨authIssueOf entries, mem_detect_auth hgt, rfl⟩
  · intro iss hmem hty
    rcases detect_cases hmem with ⟨g, hg, hs⟩ | ⟨heq, hc⟩ | ⟨heq, hc⟩ | ⟨heq, hc⟩
    · exact absurd ((herIssueOf_some hs).1.symm.trans hty) (by decide)
    · rw [heq] at hty
      simp [dbIssueOf] at hty
    · rw [heq] at hty
      simp [slowIssueOf] at hty
    · rw [heq]
      exact ⟨rfl, rfl, rfl⟩

/-- Witness for C4: six matching auth failures emit an Authentication
Failures observation. -/
theorem detect_auth_failures_witness :
    ∃ iss ∈ detect_issues (List.replicate 6 authEntry),
      iss.issue_type = "Authentication Failures" :=
  ((detect_auth_failures.1 (List.replicate 6 authEntry)).2.1).mpr (by decide)

theorem threeDigitWindow_shift (a : Char) (m : List Char) (i : Nat) :
    ThreeDigitWindow (a :: m) (i + 1) ↔ ThreeDigitWindow m i := by
  unfold ThreeDigitWindow
  rw [List.drop_succ_cons]

theorem threeDigitWindow_zero {a b c : Char} {t : List Char}
    (h : ThreeDigitWindow (a :: b :: c :: t) 0) :
    a.isDigit = true ∧ b.isDigit = true ∧ c.isDigit = true := by
  obtain ⟨a', b', c', t', heq, ha, hb, hc⟩ := h
  rw [List.drop_zero] at heq
  cases heq
  exact ⟨ha, hb, hc⟩

theorem not_threeDigitWindow_short (l : List Char) (hlen : l.length < 3)
    (i : Nat) : ¬ThreeDigitWindow l i := by
  rintro ⟨a, b, c, t, heq, -⟩
  have := congrArg List.length heq
  simp at this
  have hdrop := List.length_drop i l
  omega

/-- ERROR_CODE_PATTERN search fails exactly when no three consecutive
digits occur anywhere. -/
theorem findThreeDigits_none_iff :
    ∀ l : List Char, findThreeDigits l = none ↔
      ∀ i, ¬ThreeDigitWindow l i := by
  intro l
  induction l with
  | nil =>
    simp only [findThreeDigits, true_iff]
    exact not_threeDigitWindow_short [] (by simp)
  | cons a m ih =>
    cases m with
    | nil =>
      simp only [findThreeDigits, true_iff]
      exact not_threeDigitWindow_short [a] (by simp)
    | cons b m' =>
      cases m' with
      | nil =>
        simp only [findThreeDigits, true_iff]
        exact not_threeDigitWindow_short [a, b] (by simp)
      | cons c rest =>
        by_cases hd : (a.isDigit && b.isDigit && c.isDigit) = true
        · rw [show findThreeDigits (a :: b :: c :: rest) =
              some [a, b, c] from by rw [findThreeDigits, if_pos hd]]
          constructor
          · intro h
            cases h
          · intro hall
            exfalso
            apply hall 0
            simp only [Bool.and_eq_true] at hd
            exact ⟨a, b, c, rest, by simp, hd.1.1, hd.1.2, hd.2⟩
        · rw [show findThreeDigits (a :: b :: c :: rest) =
              findThreeDigits (b :: c :: rest) from by
                rw [findThreeDigits, if_neg hd]]
          rw [ih]
          constructor
          · intro hall i
            cases i with
            | zero =>
              intro h0
              obtain ⟨ha, hb, hc⟩ := threeDigitWindow_zero h0
              exact hd (by rw [ha, hb, hc]; rfl)
            | succ j =>
              rw [threeDigitWindow_shift]
              exact hall j
          · intro hall i hw
            exact hall (i + 1) ((threeDigitWindow_shift a _ i).mpr hw)

/-- A successful ERROR_CODE_PATTERN search returns the three characters at
the first window of three consecutive digits. -/
theorem findThreeDigits_some_spec :
    ∀ (l : List Char) (code : List Char), findThreeDigits l = some code →
      ∃ i, ThreeDigitWindow l i ∧ (∀ j < i, ¬ThreeDigitWindow l j) ∧
        code = (l.drop i).take 3 := by
  intro l
  induction l with
  | nil => intro code h; cases h
  | cons a m ih =>
    intro code h
    cases m with
    | nil => cases h
    | cons b m' =>
      cases m' with
      | nil => cases h
      | cons c rest =>
        by_cases hd : (a.isDigit && b.isDigit && c.isDigit) = true
        · rw [show findThreeDigits (a :: b :: c :: rest) =
              some [a, b, c] from by rw [findThreeDigits, if_pos hd]] at h
          cases h
          refine ⟨0, ?_, ?_, rfl⟩
          · simp only [Bool.and_eq_true] at hd
            exact ⟨a, b, c, rest, by simp, hd.1.1, hd.1.2, hd.2⟩
          · intro j hj
            exact absurd hj (by omega)
        · rw [show findThreeDigits (a :: b :: c :: rest) =
              findThreeDigits (b :: c :: rest) from by
                rw [findThreeDigits, if_neg hd]] at h
          obtain ⟨i, hw, hmin, hcode⟩ := ih code h
          refine ⟨i + 1, (threeDigitWindow_shift a _ i).mpr hw, ?_, hcode⟩
          intro j hj
          cases j with
          | zero =>
            intro h0
            obtain ⟨ha, hb, hc⟩ := threeDigitWindow_zero h0
            exact hd (by rw [ha, hb, hc]; rfl)
          | succ j' =>
            rw [threeDigitWindow_shift]
            exact hmin j' (by omega)

/-- C7: in every parsed record, response time, user id and error code
are each extracted from the message alone (so the extractions are
independent); the error code is absent exactly when no three consecutive
digits occur in the message, and otherwise is the first window of three
consecutive digits. -/
theorem parse_error_code_extraction (line : String) (r : Entry)
    (h : parse_log_line line = some r) :
    r.response_time = findTimeMs r.message.data ∧
    r.user_id = findUserId r.message.data ∧
    r.error_code = (findThreeDigits r.message.data).map String.mk ∧
    (r.error_code = none ↔ ∀ i, ¬ThreeDigitWindow r.message.data i) ∧
    (∀ code : String, r.error_code = some code →
      ∃ i, ThreeDigitWindow r.message.data i ∧
        (∀ j < i, ¬ThreeDigitWindow r.message.data j) ∧
        code = String.mk ((r.message.data.drop i).take 3)) := by
  unfold parse_log_line at h
  rcases hm : matchLog (pyStrip line.data) with _ | ⟨ts, lvl, comp, msg⟩
  · rw [hm] at h
    cases h
  · rw [hm] at h
    simp only [Option.some.injEq] at h
    subst h
    refine ⟨rfl, rfl, rfl, ?_, ?_⟩
    · constructor
      · intro h0
        rw [show (Entry.mk (String.mk ts) (String.mk lvl) (String.mk comp)
            (String.mk msg) (findTimeMs msg) (findUserId msg)
            ((findThreeDigits msg).map String.mk)).error_code =
            (findThreeDigits msg).map String.mk from rfl] at h0
        rw [Option.map_eq_none'] at h0
        exact (findThreeDigits_none_iff msg).mp h0
      · intro hall
        have : findThreeDigits msg = none :=
          (findThreeDigits_none_iff msg).mpr hall
        simp [this]
    · intro code hc
      rw [show (Entry.mk (String.mk ts) (String.mk lvl) (String.mk comp)
          (String.mk msg) (findTimeMs msg) (findUserId msg)
          ((findThreeDigits msg).map String.mk)).error_code =
          (findThreeDigits msg).map String.mk from rfl] at hc
      rw [Option.map_eq_some'] at hc
      obtain ⟨code', hfind, hcode⟩ := hc
      obtain ⟨i, hw, hmin, hval⟩ := findThreeDigits_some_spec msg code' hfind
      exact ⟨i, hw, hmin, by rw [← hcode, hval]⟩

/-- Witness for C7: the spec's extraction-independence example — response
time 5231, user id 4521 and error code 523 all extracted from one
message. -/
theorem parse_error_code_extraction_witness :
    c7Entry.response_time = findTimeMs c7Entry.message.data ∧
    c7Entry.user_id = findUserId c7Entry.message.data := by
  have h := parse_error_code_extraction
    "2024-01-15 10:23:45 ERROR [Database] Query timeout after 5231ms user_id=4521"
    c7Entry (by decide)
  exact ⟨h.1, h.2.1⟩

end Lemmas
